import Mathlib

/-!
# Verification of the GeneticReverb core (FMODCustomPlugins)

A shallow embedding of the genetic-algorithm reverb engine:

* `AnalysisHelpers.h` — `calculateSchroederDecay`, `calculateT60`,
  `calculateEDT`, `calculateC80`;
* `GeneticAlgorithm.cpp` (the defensive revision, the one with the
  population-size guard, progress callback and cancellation flag) —
  `initializePopulation`, `calculatePopulationFitness`,
  `createNextGeneration`, `crossover`, `mutate`, `compute`;
* `ConvolutionProcessor.cpp` — `prepare`, `process`, `release`, `setIR`.

Sample values and fitness values are embedded as rationals.  The two
transcendental operations the C++ code uses (`std::log10` and
`std::pow(10, ·)`) and the pseudo-random draws of the Mersenne twister are
modelled as oracle functions, universally quantified in every theorem, so
each theorem covers every possible sequence of random draws and every
(deterministic) behaviour of the transcendental routines.  The random
stream is consumed through an explicit counter that advances exactly as
the C++ code draws from `m_rng`.  The external FFT convolution engine
(`FFTConvolver`, out of scope per the design) is likewise an oracle: its
`init` success result and its block processing are arbitrary functions.
-/

namespace GeneticReverb

/-- The `1e-20` energy floor of `AnalysisHelpers.h`. -/
def minEnergy : ℚ := 1 / 10 ^ 20

/-- The `1e10` sentinel fitness used throughout `GeneticAlgorithm`. -/
def sentinelFitness : ℚ := 10 ^ 10

/-- Embeds `std::partial_sum`: running sums of a list, starting from `acc`. -/
def cumsum : List ℚ → ℚ → List ℚ
  | [], _ => []
  | x :: xs, acc => (acc + x) :: cumsum xs (acc + x)

/-- The total energy `edc[0]` computed by `calculateSchroederDecay`:
square every sample, reverse, accumulate, reverse, take the first entry
(which is the sum of all squared samples). -/
def schroederTotalEnergy (ir : List ℚ) : ℚ :=
  ((cumsum ((ir.map fun x => x * x).reverse) 0).reverse).headD 0

/-- Embeds `calculateSchroederDecay` of `AnalysisHelpers.h`.  `lg` models
`std::log10` on the ratio argument. -/
def calculateSchroederDecay (lg : ℚ → ℚ) (ir : List ℚ) : List ℚ :=
  if ir = [] then []
  else
    let edc := (cumsum ((ir.map fun x => x * x).reverse) 0).reverse
    let totalEnergy := edc.headD 0
    if totalEnergy < minEnergy then List.replicate ir.length (-100)
    else edc.map fun e => 10 * lg (max (e / max totalEnergy minEnergy) minEnergy)

/-- The linear scan of the `findTimeForDB` lambda: first index whose
value is `≤ db`. -/
def findTimeForDBAux (db : ℚ) : List ℚ → ℕ → Option ℕ
  | [], _ => none
  | v :: rest, i => if v ≤ db then some i else findTimeForDBAux db rest (i + 1)

/-- Embeds the `findTimeForDB` lambda of `calculateT60`/`calculateEDT`: first crossing
index, or `size - 1` when the curve never crosses (`-1` on an empty
curve, matching `(int)edc_dB.size() - 1`). -/
def findTimeForDB (edc : List ℚ) (db : ℚ) : ℤ :=
  match findTimeForDBAux db edc 0 with
  | some i => (i : ℤ)
  | none => (edc.length : ℤ) - 1

/-- Embeds `calculateT60` of `AnalysisHelpers.h`. -/
def calculateT60 (edc : List ℚ) (sampleRate : ℚ) : ℚ :=
  let tMinus5 := findTimeForDB edc (-5)
  let tMinus35 := findTimeForDB edc (-35)
  let t30 : ℚ := ((tMinus35 - tMinus5 : ℤ) : ℚ)
  if t30 ≤ 0 then 0 else t30 / sampleRate * 2

/-- Embeds `calculateEDT` of `AnalysisHelpers.h`. -/
def calculateEDT (edc : List ℚ) (sampleRate : ℚ) : ℚ :=
  let t0 := findTimeForDB edc 0
  let tMinus10 := findTimeForDB edc (-10)
  let t10 : ℚ := ((tMinus10 - t0 : ℤ) : ℚ)
  if t10 ≤ 0 then 0 else t10 / sampleRate * 6

/-- The early/late energy split of `calculateC80` (samples strictly
before index `samples80` are early).  The C++ loop accumulates in order;
rational addition is exact, so the recursion order is immaterial. -/
def c80Split (samples80 : ℤ) : List ℚ → ℤ → ℚ × ℚ
  | [], _ => (0, 0)
  | x :: xs, i =>
    let rest := c80Split samples80 xs (i + 1)
    if i < samples80 then (rest.1 + x * x, rest.2) else (rest.1, rest.2 + x * x)

/-- Embeds `calculateC80` of `AnalysisHelpers.h`.  The `static_cast<int>` of
`0.08f * sampleRate` truncates toward zero, which coincides with the
floor for the nonnegative sample rates used by the program. -/
def calculateC80 (lg : ℚ → ℚ) (ir : List ℚ) (sampleRate : ℚ) : ℚ :=
  let samples80 : ℤ := ⌊(8 / 100 : ℚ) * sampleRate⌋
  let energies := c80Split samples80 ir 0
  10 * lg (max energies.1 minEnergy / max energies.2 minEnergy)

/-- Embeds `struct ReverbTargetParams` (defaults from `GeneticAlgorithm.h`). -/
structure ReverbTargetParams where
  t60 : ℚ := 2 / 5
  edt : ℚ := 3 / 50
  c80 : ℚ := 12
  br : ℚ := 7 / 10
deriving DecidableEq

/-- Embeds `struct Individual`: an impulse response and its fitness
(default-constructed with an empty IR and the sentinel fitness). -/
structure Individual where
  ir : List ℚ
  fitness : ℚ := sentinelFitness
deriving DecidableEq

instance : Inhabited Individual := ⟨{ ir := [] }⟩

/-- The environment of a `compute` run: the random draws of `m_rng`
(`rand` for the two real distributions, `pick` for
`uniform_int_distribution`, both indexed by a shared consumption
counter), the transcendental routines (`lg10` for `std::log10`, `pw10`
for `std::pow(10, ·)`), the value the per-generation load of the atomic
cancellation flag observes, and whether a progress callback is
registered. -/
structure Oracle where
  rand : ℕ → ℚ
  pick : ℕ → ℕ
  lg10 : ℚ → ℚ
  pw10 : ℚ → ℚ
  cancelAt : ℕ → Bool
  hasCallback : Bool

/-- The mutable state of a `GeneticAlgorithm` object. -/
structure GAState where
  population : List Individual
  popSize : ℤ
  mutationRate : ℚ
  sampleRate : ℚ

/-- The `GeneticAlgorithm` constructor: records the parameters and
resizes the population to `popSize` default individuals. -/
def initGA (populationSize : ℤ) (mutationRate sampleRate : ℚ) : GAState :=
  { population := List.replicate populationSize.toNat default
    popSize := populationSize
    mutationRate := mutationRate
    sampleRate := sampleRate }

/-- The IR length picked by `initializePopulation`:
`static_cast<size_t>(targetT60 * 1.5 * sampleRate)` (truncation; for the
nonnegative products of the program this is the floor), raised to `1024`
when smaller, after clamping a too-small target T60 to `0.001`. -/
def irLengthOf (targetT60 sampleRate : ℚ) : ℕ :=
  let t := if targetT60 ≤ 1 / 10 ^ 4 then 1 / 10 ^ 3 else targetT60
  let l := (⌊t * (3 / 2) * sampleRate⌋).toNat
  if l < 1024 then 1024 else l

/-- One freshly generated impulse response of `initializePopulation`:
sample `i` is a random draw times the exponential decay envelope.
Consumes `irLen` random draws starting at counter `c`. -/
def genIR (o : Oracle) (t sampleRate : ℚ) (irLen : ℕ) (c : ℕ) : List ℚ :=
  (List.range irLen).map fun (i : ℕ) =>
    let time : ℚ := (i : ℚ) / sampleRate
    let noise := o.rand (c + i)
    let decay : ℚ := if t > 1 / 10 ^ 6 then o.pw10 (-3 * time / t) else 1
    noise * decay

/-- The population-filling loop of `initializePopulation`: every
individual gets a fresh IR and the sentinel fitness. -/
def fillPopulation (o : Oracle) (t sampleRate : ℚ) (irLen : ℕ) :
    List Individual → ℕ → List Individual × ℕ
  | [], c => ([], c)
  | _ :: rest, c =>
    let ir := genIR o t sampleRate irLen c
    let filled := fillPopulation o t sampleRate irLen rest (c + irLen)
    ({ ir := ir, fitness := sentinelFitness } :: filled.1, filled.2)

/-- Embeds `GeneticAlgorithm::initializePopulation`. -/
def initializePopulation (o : Oracle) (targetT60 : ℚ) (s : GAState) (c : ℕ) :
    GAState × ℕ :=
  if s.population = [] then (s, c)
  else
    let t := if targetT60 ≤ 1 / 10 ^ 4 then 1 / 10 ^ 3 else targetT60
    let irLen := irLengthOf targetT60 s.sampleRate
    let filled := fillPopulation o t s.sampleRate irLen s.population c
    ({ s with population := filled.1 }, filled.2)

/-- The fitness formula of `calculatePopulationFitness`:
`|measuredT60 - targetT60| * 100 + |measuredC80 - targetC80| * 1`. -/
def fitnessValue (o : Oracle) (tp : ReverbTargetParams) (sampleRate : ℚ)
    (ir : List ℚ) : ℚ :=
  let edc := calculateSchroederDecay o.lg10 ir
  let t60 := calculateT60 edc sampleRate
  let c80 := calculateC80 o.lg10 ir sampleRate
  |t60 - tp.t60| * 100 + |c80 - tp.c80| * 1

/-- The per-individual body of `calculatePopulationFitness`: an empty IR
gets the sentinel fitness, an empty decay curve leaves the fitness
unchanged, otherwise the fitness formula is applied. -/
def evalIndividual (o : Oracle) (tp : ReverbTargetParams) (sampleRate : ℚ)
    (ind : Individual) : Individual :=
  if ind.ir = [] then { ind with fitness := sentinelFitness }
  else if calculateSchroederDecay o.lg10 ind.ir = [] then ind
  else { ind with fitness := fitnessValue o tp sampleRate ind.ir }

/-- Embeds `GeneticAlgorithm::calculatePopulationFitness`. -/
def calculatePopulationFitness (o : Oracle) (tp : ReverbTargetParams)
    (sampleRate : ℚ) (pop : List Individual) : List Individual :=
  pop.map (evalIndividual o tp sampleRate)

/-- Embeds `Individual::operator<` as used by `std::sort` (ascending fitness). -/
def indLe (a b : Individual) : Bool := decide (a.fitness ≤ b.fitness)

/-- The `std::sort` of `compute`, embedded as a stable sort on fitness
(ties are unspecified in the source; the spec designates any stable,
by-index order as acceptable). -/
def sortPop (pop : List Individual) : List Individual := pop.mergeSort indLe

/-- Embeds `GeneticAlgorithm::crossover`: uniform crossover onto the longer
parent length, consuming one coin draw per sample position. -/
def crossover (o : Oracle) (p1 p2 : Individual) (c : ℕ) : Individual × ℕ :=
  let len1 := p1.ir.length
  let len2 := p2.ir.length
  let irLen := max len1 len2
  if irLen = 0 then ({ ir := [], fitness := sentinelFitness }, c)
  else
    let ir := (List.range irLen).map fun i =>
      if o.rand (c + i) < 1 / 2 then
        if i < len1 then p1.ir.getD i 0 else if i < len2 then p2.ir.getD i 0 else 0
      else
        if i < len2 then p2.ir.getD i 0 else if i < len1 then p1.ir.getD i 0 else 0
    ({ ir := ir, fitness := sentinelFitness }, c + irLen)

/-- The per-sample loop of `GeneticAlgorithm::mutate`: each sample draws
one coin; on success it additionally draws a perturbation scaled by
`0.1`. -/
def mutateIR (o : Oracle) (mutationRate : ℚ) : List ℚ → ℕ → List ℚ × ℕ
  | [], c => ([], c)
  | x :: xs, c =>
    if o.rand c < mutationRate then
      let rest := mutateIR o mutationRate xs (c + 2)
      ((x + o.rand (c + 1) * (1 / 10)) :: rest.1, rest.2)
    else
      let rest := mutateIR o mutationRate xs (c + 1)
      (x :: rest.1, rest.2)

/-- Embeds `GeneticAlgorithm::mutate` (no draws on an empty IR). -/
def mutate (o : Oracle) (mutationRate : ℚ) (ind : Individual) (c : ℕ) :
    Individual × ℕ :=
  if ind.ir = [] then (ind, c)
  else
    let res := mutateIR o mutationRate ind.ir c
    ({ ind with ir := res.1 }, res.2)

/-- The child-producing loop of `createNextGeneration`: each child picks
two parents from the elite subset (two `distElite` draws), applies
crossover, then mutation. -/
def makeChildren (o : Oracle) (mutationRate : ℚ) (pop : List Individual)
    (e : ℕ) : ℕ → ℕ → List Individual × ℕ
  | 0, c => ([], c)
  | k + 1, c =>
    let p1 := pop.getD (o.pick c % e) default
    let p2 := pop.getD (o.pick (c + 1) % e) default
    let child := crossover o p1 p2 (c + 2)
    let mutated := mutate o mutationRate child.1 child.2
    let rest := makeChildren o mutationRate pop e k mutated.2
    (mutated.1 :: rest.1, rest.2)

/-- The elite count computed at the top of `createNextGeneration`:
`popSize * 20 / 100` (integer division), raised to `1` when smaller and
capped at `popSize`. -/
def eliteCountOf (n : ℕ) : ℕ :=
  let e0 := n * 20 / 100
  let e1 := if e0 < 1 then 1 else e0
  if e1 > n then n else e1

/-- Embeds `GeneticAlgorithm::createNextGeneration`: empty on a non-positive
population size; otherwise the top `eliteCount` individuals are copied
unchanged and the remaining slots are children. -/
def createNextGeneration (o : Oracle) (s : GAState) (c : ℕ) :
    List Individual × ℕ :=
  if s.popSize ≤ 0 then ([], c)
  else
    let n := s.popSize.toNat
    let e := eliteCountOf n
    let elites := (List.range e).map fun i => s.population.getD i default
    let children := makeChildren o s.mutationRate s.population e (n - e) c
    (elites ++ children.1, children.2)

/-- One invocation of the `m_onProgress` callback. -/
structure GenerationReport where
  current : ℕ
  total : ℕ
  best : ℚ
deriving DecidableEq

/-- Why a `compute` run ended. -/
inductive ExitReason where
  | popSizeNonPositive
  | emptyPopulation (gen : ℕ)
  | emptyBestIR (gen : ℕ)
  | converged (gen : ℕ)
  | cancelled (gen : ℕ)
  | emptyNextGen (gen : ℕ)
  | exhausted
deriving DecidableEq

/-- The observable outcome of a `compute` run: the returned IR, the
sequence of progress-callback invocations, why the run ended, the final
object state, and (for specification purposes) the sorted population
snapshot of every generation that completed its evaluation/sort pass. -/
structure ComputeResult where
  ir : List ℚ
  reports : List GenerationReport
  exitReason : ExitReason
  state : GAState
  trace : List (List Individual)

/-- The best value reported by the final progress emit of `compute`:
the sentinel when the population or its best IR is empty, otherwise the
best individual's fitness. -/
def finishBestVal (s : GAState) : ℚ :=
  match s.population with
  | [] => sentinelFitness
  | b :: _ => if b.ir = [] then sentinelFitness else b.fitness

/-- The IR returned by `compute` after the loop: empty when the
population or its best IR is empty, otherwise the best individual's
IR. -/
def finishIR (s : GAState) : List ℚ :=
  match s.population with
  | [] => []
  | b :: _ => if b.ir = [] then [] else b.ir

/-- The code after the generation loop of `compute`: emit the final
report (`generationIndex = numGenerations`) and return the best IR, or
empty on a degenerate population. -/
def finishCompute (o : Oracle) (numGen : ℕ) (s : GAState)
    (reps : List GenerationReport) (tr : List (List Individual))
    (ex : ExitReason) : ComputeResult :=
  { ir := finishIR s
    reports := if o.hasCallback then reps ++ [⟨numGen, numGen, finishBestVal s⟩] else reps
    exitReason := ex
    state := s
    trace := tr }

/-- The generation loop of `compute`: evaluate all fitnesses, sort, emit
the per-generation report, stop on convergence (`best < 0.001`), then on
the cancellation flag, otherwise build the next generation.  `r` is the
number of loop iterations left (`gen + r = numGenerations`). -/
def computeLoop (o : Oracle) (tp : ReverbTargetParams) (numGen : ℕ) :
    ℕ → ℕ → GAState → ℕ → List GenerationReport → List (List Individual) →
    ComputeResult
  | 0, _, s, _, reps, tr => finishCompute o numGen s reps tr .exhausted
  | r + 1, gen, s, c, reps, tr =>
    let pop1 := calculatePopulationFitness o tp s.sampleRate s.population
    if pop1 = [] then ⟨[], reps, .emptyPopulation gen, { s with population := pop1 }, tr⟩
    else
      let sorted := sortPop pop1
      let s2 := { s with population := sorted }
      let b := sorted.headD default
      if b.ir = [] then ⟨[], reps, .emptyBestIR gen, s2, tr ++ [sorted]⟩
      else
        let reps1 := if o.hasCallback then reps ++ [⟨gen + 1, numGen, b.fitness⟩] else reps
        let tr1 := tr ++ [sorted]
        if b.fitness < 1 / 10 ^ 3 then finishCompute o numGen s2 reps1 tr1 (.converged gen)
        else if o.cancelAt gen then finishCompute o numGen s2 reps1 tr1 (.cancelled gen)
        else
          let next := createNextGeneration o s2 c
          if next.1 = [] then
            ⟨[], reps1, .emptyNextGen gen, { s2 with population := next.1 }, tr1⟩
          else computeLoop o tp numGen r (gen + 1) { s2 with population := next.1 } next.2 reps1 tr1

/-- Embeds `GeneticAlgorithm::compute` (defensive revision): guard the
population size, emit the initial report, initialize the population, run
the generation loop. -/
def compute (o : Oracle) (s : GAState) (tp : ReverbTargetParams)
    (numGen : ℕ) : ComputeResult :=
  if s.popSize ≤ 0 then ⟨[], [], .popSizeNonPositive, s, []⟩
  else
    let reps0 : List GenerationReport :=
      if o.hasCallback then [⟨0, numGen, sentinelFitness⟩] else []
    let inited := initializePopulation o tp.t60 s 0
    computeLoop o tp numGen numGen 0 inited.1 inited.2 reps0 []

/-! ## ConvolutionProcessor -/

/-- The state of one external `FFTConvolver`: freshly reset, or
initialized with a block size and an IR (recording whether its `init`
reported success). -/
inductive ConvolverState where
  | reset
  | inited (blockSize : ℕ) (ir : List ℚ) (ok : Bool)
deriving DecidableEq

/-- The external convolution engine as an oracle: `init` success per
channel, and per-channel block processing (state transformer producing
the output block). -/
structure ConvOracle where
  initOkL : ℕ → List ℚ → Bool
  initOkR : ℕ → List ℚ → Bool
  runL : ConvolverState → List ℚ → ℕ → ConvolverState × List ℚ
  runR : ConvolverState → List ℚ → ℕ → ConvolverState × List ℚ

/-- The convolution-related state of a `ConvolutionProcessor`. -/
structure CPState where
  convolverL : ConvolverState
  convolverR : ConvolverState
  isIRReady : Bool
  isGenerating : Bool
  progress : ℚ
  maxBlockSize : ℕ
  sampleRate : ℚ
  params : ReverbTargetParams
deriving DecidableEq

namespace ConvolutionProcessor

/-- The `ConvolutionProcessor` constructor / member initializers. -/
def construct : CPState :=
  { convolverL := .reset
    convolverR := .reset
    isIRReady := false
    isGenerating := false
    progress := 0
    maxBlockSize := 1024
    sampleRate := 44100
    params := {} }

/-- Embeds `ConvolutionProcessor::prepare`: cancels and joins any worker (thread
bookkeeping outside this state), clears the generating flag and the
progress, records the format, resets both convolvers and lowers the
readiness flag. -/
def prepare (sampleRate : ℚ) (maxBlockSize : ℕ) (s : CPState) : CPState :=
  { s with isGenerating := false
           progress := 0
           sampleRate := sampleRate
           maxBlockSize := maxBlockSize
           convolverL := .reset
           convolverR := .reset
           isIRReady := false }

/-- Embeds `ConvolutionProcessor::process`: zero both outputs when the IR is not
ready, otherwise run both channel convolvers. -/
def process (o : ConvOracle) (inL inR : List ℚ) (numSamples : ℕ)
    (s : CPState) : CPState × List ℚ × List ℚ :=
  if s.isIRReady = false then (s, List.replicate numSamples 0, List.replicate numSamples 0)
  else
    let l := o.runL s.convolverL inL numSamples
    let r := o.runR s.convolverR inR numSamples
    ({ s with convolverL := l.1, convolverR := r.1 }, l.2, r.2)

/-- Embeds `ConvolutionProcessor::release`. -/
def release (s : CPState) : CPState :=
  { s with isGenerating := false
           progress := 0
           convolverL := .reset
           convolverR := .reset
           isIRReady := false }

/-- Embeds `ConvolutionProcessor::setIR`: a null/empty IR is a no-op; otherwise
both convolvers are re-initialized with the same IR and the readiness
flag is stored as the conjunction of the two `init` results. -/
def setIR (o : ConvOracle) (ir : List ℚ) (s : CPState) : CPState :=
  if ir = [] then s
  else
    let okL := o.initOkL s.maxBlockSize ir
    let okR := o.initOkR s.maxBlockSize ir
    { s with convolverL := .inited s.maxBlockSize ir okL
             convolverR := .inited s.maxBlockSize ir okR
             isIRReady := okL && okR }

end ConvolutionProcessor

/-- A sequence of `process` calls (input pair and sample count each),
threading the processor state and collecting the output pairs. -/
def processSeq (o : ConvOracle) : List (List ℚ × List ℚ × ℕ) → CPState →
    CPState × List (List ℚ × List ℚ)
  | [], s => (s, [])
  | call :: rest, s =>
    let step := ConvolutionProcessor.process o call.1 call.2.1 call.2.2 s
    let further := processSeq o rest step.1
    (further.1, (step.2.1, step.2.2) :: further.2)

/-! ## Structural lemmas -/

theorem cumsum_length (l : List ℚ) (acc : ℚ) : (cumsum l acc).length = l.length := by
  induction l generalizing acc with
  | nil => rfl
  | cons x xs ih => simp [cumsum, ih]

theorem calculateSchroederDecay_length (lg : ℚ → ℚ) (ir : List ℚ) :
    (calculateSchroederDecay lg ir).length = ir.length := by
  rw [calculateSchroederDecay]
  split
  · simp_all
  · dsimp only
    split <;> simp [cumsum_length]

theorem calculateSchroederDecay_eq_nil_iff (lg : ℚ → ℚ) (ir : List ℚ) :
    calculateSchroederDecay lg ir = [] ↔ ir = [] := by
  constructor
  · intro h
    have := calculateSchroederDecay_length lg ir
    rw [h] at this
    exact List.eq_nil_of_length_eq_zero this.symm
  · intro h
    simp [calculateSchroederDecay, h]

theorem evalIndividual_ir (o : Oracle) (tp : ReverbTargetParams) (sr : ℚ)
    (ind : Individual) : (evalIndividual o tp sr ind).ir = ind.ir := by
  unfold evalIndividual
  split <;> [rfl; skip]
  split <;> rfl

theorem evalIndividual_fitness (o : Oracle) (tp : ReverbTargetParams) (sr : ℚ)
    (ind : Individual) (h : ind.ir ≠ []) :
    (evalIndividual o tp sr ind).fitness = fitnessValue o tp sr ind.ir := by
  unfold evalIndividual
  rw [if_neg h, if_neg (by simpa [calculateSchroederDecay_eq_nil_iff] using h)]

theorem calculatePopulationFitness_length (o : Oracle) (tp : ReverbTargetParams)
    (sr : ℚ) (pop : List Individual) :
    (calculatePopulationFitness o tp sr pop).length = pop.length := by
  simp [calculatePopulationFitness]

theorem indLe_trans (a b c : Individual) (h1 : indLe a b = true)
    (h2 : indLe b c = true) : indLe a c = true := by
  simp only [indLe, decide_eq_true_eq] at *
  exact le_trans h1 h2

theorem indLe_total (a b : Individual) : (indLe a b || indLe b a) = true := by
  simp only [indLe, Bool.or_eq_true, decide_eq_true_eq]
  exact le_total a.fitness b.fitness

theorem sortPop_perm (pop : List Individual) : (sortPop pop).Perm pop :=
  List.mergeSort_perm pop indLe

theorem sortPop_length (pop : List Individual) : (sortPop pop).length = pop.length :=
  (sortPop_perm pop).length_eq

theorem sortPop_mem_iff (pop : List Individual) (x : Individual) :
    x ∈ sortPop pop ↔ x ∈ pop :=
  (sortPop_perm pop).mem_iff

theorem sortPop_pairwise (pop : List Individual) :
    (sortPop pop).Pairwise fun a b => indLe a b = true :=
  List.sorted_mergeSort indLe_trans indLe_total pop

theorem sortPop_headD_le (pop : List Individual) (x : Individual)
    (hx : x ∈ sortPop pop) :
    ((sortPop pop).headD default).fitness ≤ x.fitness := by
  rcases hs : sortPop pop with _ | ⟨h, t⟩
  · rw [hs] at hx; exact absurd hx (List.not_mem_nil x)
  · have hp := sortPop_pairwise pop
    rw [hs] at hp hx
    rw [List.mem_cons] at hx
    rcases hx with rfl | hx
    · simp
    · have := List.rel_of_pairwise_cons hp hx
      simpa [indLe] using this

theorem mutateIR_length (o : Oracle) (mr : ℚ) (l : List ℚ) (c : ℕ) :
    (mutateIR o mr l c).1.length = l.length := by
  induction l generalizing c with
  | nil => rfl
  | cons x xs ih =>
    unfold mutateIR
    split <;> simp [ih]

theorem mutate_ir_length (o : Oracle) (mr : ℚ) (ind : Individual) (c : ℕ) :
    (mutate o mr ind c).1.ir.length = ind.ir.length := by
  unfold mutate
  split <;> simp [mutateIR_length]

theorem crossover_ir_length (o : Oracle) (p1 p2 : Individual) (c : ℕ) :
    (crossover o p1 p2 c).1.ir.length = max p1.ir.length p2.ir.length := by
  by_cases hmax : max p1.ir.length p2.ir.length = 0
  · simp [crossover, hmax]
  · simp [crossover, hmax]

theorem makeChildren_length (o : Oracle) (mr : ℚ) (pop : List Individual)
    (e k c : ℕ) : (makeChildren o mr pop e k c).1.length = k := by
  induction k generalizing c with
  | zero => rfl
  | succ k ih => simp [makeChildren, ih]

theorem range_map_getD_eq_take (pop : List Individual) (e : ℕ)
    (he : e ≤ pop.length) :
    ((List.range e).map fun i => pop.getD i default) = pop.take e := by
  apply List.ext_getElem
  · simp [he]
  · intro i h1 h2
    have hi : i < e := by simpa using h1
    have hip : i < pop.length := lt_of_lt_of_le hi he
    simp [List.getD_eq_getElem?_getD, List.getElem?_eq_getElem hip]

theorem eliteCountOf_le (n : ℕ) : eliteCountOf n ≤ n := by
  unfold eliteCountOf
  dsimp only
  split_ifs <;> omega

theorem eliteCountOf_pos (n : ℕ) (h : 0 < n) : 0 < eliteCountOf n := by
  unfold eliteCountOf
  dsimp only
  split_ifs <;> omega

theorem createNextGeneration_length (o : Oracle) (s : GAState) (c : ℕ)
    (h : 0 < s.popSize) :
    (createNextGeneration o s c).1.length = s.popSize.toNat := by
  unfold createNextGeneration
  rw [if_neg (by omega)]
  have := eliteCountOf_le s.popSize.toNat
  simp only [List.length_append, List.length_map, List.length_range, makeChildren_length]
  omega

theorem getD_mem_of_lt (pop : List Individual) (i : ℕ) (h : i < pop.length) :
    pop.getD i default ∈ pop := by
  rw [List.getD_eq_getElem?_getD, List.getElem?_eq_getElem h]
  exact List.getElem_mem h

/-- The population invariant of a run: exactly `n` individuals, each
holding an impulse response of exactly `L` samples. -/
def PopInv (L n : ℕ) (pop : List Individual) : Prop :=
  pop.length = n ∧ ∀ ind ∈ pop, ind.ir.length = L

theorem genIR_length (o : Oracle) (t sr : ℚ) (irLen c : ℕ) :
    (genIR o t sr irLen c).length = irLen := by
  simp [genIR]

theorem fillPopulation_popInv (o : Oracle) (t sr : ℚ) (irLen : ℕ)
    (pop : List Individual) (c : ℕ) :
    PopInv irLen pop.length (fillPopulation o t sr irLen pop c).1 := by
  induction pop generalizing c with
  | nil => exact ⟨rfl, by simp [fillPopulation]⟩
  | cons x xs ih =>
    obtain ⟨ihlen, ihmem⟩ := ih (c + irLen)
    refine ⟨by simp [fillPopulation, ihlen], ?_⟩
    intro ind hmem
    rw [fillPopulation, List.mem_cons] at hmem
    rcases hmem with rfl | hmem
    · exact genIR_length o t sr irLen c
    · exact ihmem ind hmem

theorem initializePopulation_population (o : Oracle) (targetT60 : ℚ)
    (s : GAState) (c : ℕ) (h : s.population ≠ []) :
    PopInv (irLengthOf targetT60 s.sampleRate) s.population.length
      (initializePopulation o targetT60 s c).1.population := by
  rw [initializePopulation, if_neg h]
  exact fillPopulation_popInv o _ s.sampleRate _ s.population c

theorem initializePopulation_popSize (o : Oracle) (targetT60 : ℚ)
    (s : GAState) (c : ℕ) :
    (initializePopulation o targetT60 s c).1.popSize = s.popSize := by
  rw [initializePopulation]
  split <;> rfl

theorem initializePopulation_mutationRate (o : Oracle) (targetT60 : ℚ)
    (s : GAState) (c : ℕ) :
    (initializePopulation o targetT60 s c).1.mutationRate = s.mutationRate := by
  rw [initializePopulation]
  split <;> rfl

theorem initializePopulation_sampleRate (o : Oracle) (targetT60 : ℚ)
    (s : GAState) (c : ℕ) :
    (initializePopulation o targetT60 s c).1.sampleRate = s.sampleRate := by
  rw [initializePopulation]
  split <;> rfl

theorem makeChildren_ir_length (o : Oracle) (mr : ℚ) (pop : List Individual)
    (e k c : ℕ) (L : ℕ) (he : 0 < e) (hel : e ≤ pop.length)
    (hL : ∀ ind ∈ pop, ind.ir.length = L) :
    ∀ ind ∈ (makeChildren o mr pop e k c).1, ind.ir.length = L := by
  induction k generalizing c with
  | zero => simp [makeChildren]
  | succ k ih =>
    intro ind hmem
    rw [makeChildren, List.mem_cons] at hmem
    rcases hmem with rfl | hmem
    · have h1 : pop.getD (o.pick c % e) default ∈ pop :=
        getD_mem_of_lt pop _ (lt_of_lt_of_le (Nat.mod_lt _ he) hel)
      have h2 : pop.getD (o.pick (c + 1) % e) default ∈ pop :=
        getD_mem_of_lt pop _ (lt_of_lt_of_le (Nat.mod_lt _ he) hel)
      rw [mutate_ir_length, crossover_ir_length, hL _ h1, hL _ h2, max_self]
    · exact ih _ ind hmem

theorem createNextGeneration_popInv (o : Oracle) (s : GAState) (c : ℕ)
    (L : ℕ) (hpos : 0 < s.popSize)
    (hinv : PopInv L s.popSize.toNat s.population) :
    PopInv L s.popSize.toNat (createNextGeneration o s c).1 := by
  obtain ⟨hlen, hmem⟩ := hinv
  refine ⟨createNextGeneration_length o s c hpos, ?_⟩
  intro ind hm
  rw [createNextGeneration, if_neg (by omega)] at hm
  simp only [List.mem_append, List.mem_map, List.mem_range] at hm
  rcases hm with ⟨i, hi, rfl⟩ | hm
  · exact hmem _ (getD_mem_of_lt _ _ (by
      have := eliteCountOf_le s.popSize.toNat
      omega))
  · exact makeChildren_ir_length o s.mutationRate s.population _ _ c L
      (eliteCountOf_pos _ (by omega)) (by rw [hlen]; exact eliteCountOf_le _) hmem ind hm

/-- Evaluation consistency: every individual with a nonempty IR carries
exactly the fitness the deterministic fitness formula assigns to its IR.
This holds after every `calculatePopulationFitness` pass and is what
makes the best fitness non-increasing across generations. -/
def EvalOK (o : Oracle) (tp : ReverbTargetParams) (sr : ℚ)
    (pop : List Individual) : Prop :=
  ∀ ind ∈ pop, ind.ir ≠ [] → ind.fitness = fitnessValue o tp sr ind.ir

theorem evalOK_calculatePopulationFitness (o : Oracle) (tp : ReverbTargetParams)
    (sr : ℚ) (pop : List Individual) :
    EvalOK o tp sr (calculatePopulationFitness o tp sr pop) := by
  intro ind hmem hne
  simp only [calculatePopulationFitness, List.mem_map] at hmem
  obtain ⟨src, hsrc, rfl⟩ := hmem
  have hs : src.ir ≠ [] := by rwa [evalIndividual_ir] at hne
  rw [evalIndividual_fitness o tp sr src hs, evalIndividual_ir]

theorem evalOK_sortPop (o : Oracle) (tp : ReverbTargetParams) (sr : ℚ)
    (pop : List Individual) (h : EvalOK o tp sr pop) :
    EvalOK o tp sr (sortPop pop) := by
  intro ind hmem
  exact h ind ((sortPop_mem_iff pop ind).1 hmem)

theorem irLengthOf_pos (targetT60 sampleRate : ℚ) :
    0 < irLengthOf targetT60 sampleRate := by
  unfold irLengthOf
  dsimp only
  split_ifs <;> omega

theorem getD_zero_eq_headD (pop : List Individual) :
    pop.getD 0 default = pop.headD default := by
  cases pop <;> rfl

theorem createNextGeneration_head (o : Oracle) (s : GAState) (c : ℕ)
    (hpos : 0 < s.popSize) :
    ∃ rest, (createNextGeneration o s c).1 = s.population.headD default :: rest := by
  rw [createNextGeneration, if_neg (by omega)]
  dsimp only
  have he := eliteCountOf_pos s.popSize.toNat (by omega)
  obtain ⟨e', he'⟩ : ∃ e', eliteCountOf s.popSize.toNat = e' + 1 :=
    ⟨eliteCountOf s.popSize.toNat - 1, by omega⟩
  rw [he', List.range_succ_eq_map, List.map_cons, List.cons_append, getD_zero_eq_headD]
  exact ⟨_, rfl⟩

theorem calculatePopulationFitness_popInv (o : Oracle) (tp : ReverbTargetParams)
    (sr : ℚ) (pop : List Individual) (L n : ℕ) (h : PopInv L n pop) :
    PopInv L n (calculatePopulationFitness o tp sr pop) := by
  obtain ⟨hlen, hmem⟩ := h
  refine ⟨by simp [calculatePopulationFitness, hlen], ?_⟩
  intro ind hm
  simp only [calculatePopulationFitness, List.mem_map] at hm
  obtain ⟨src, hsrc, rfl⟩ := hm
  rw [evalIndividual_ir]
  exact hmem src hsrc

theorem sortPop_popInv (pop : List Individual) (L n : ℕ) (h : PopInv L n pop) :
    PopInv L n (sortPop pop) := by
  obtain ⟨hlen, hmem⟩ := h
  exact ⟨by rw [sortPop_length, hlen], fun ind hm => hmem ind ((sortPop_mem_iff pop ind).1 hm)⟩

theorem headD_mem_of_ne_nil (pop : List Individual) (h : pop ≠ []) :
    pop.headD default ∈ pop := by
  cases pop with
  | nil => exact absurd rfl h
  | cons x xs => exact List.mem_cons_self x xs

theorem headD_cons_self (pop : List Individual) (h : pop ≠ []) :
    ∃ t, pop = pop.headD default :: t := by
  cases pop with
  | nil => exact absurd rfl h
  | cons x xs => exact ⟨xs, rfl⟩

theorem ne_nil_of_headD_ir_ne_nil (pop : List Individual)
    (h : (pop.headD default).ir ≠ []) : pop ≠ [] := by
  intro hnil
  rw [hnil] at h
  exact h rfl

/-- The freshly sorted best fitness is bounded by the fitness any
already-consistent population head carried into the generation: the head
is re-evaluated to the same value and the sorted head is minimal. -/
theorem best_le_of_head (o : Oracle) (tp : ReverbTargetParams) (sr : ℚ)
    (pop : List Individual) (h : Individual) (t : List Individual)
    (hpop : pop = h :: t) (hir : h.ir ≠ [])
    (hfit : h.fitness = fitnessValue o tp sr h.ir) :
    ((sortPop (calculatePopulationFitness o tp sr pop)).headD default).fitness
      ≤ h.fitness := by
  have hmem : evalIndividual o tp sr h ∈ calculatePopulationFitness o tp sr pop := by
    rw [hpop, calculatePopulationFitness, List.map_cons]
    exact List.mem_cons_self _ _
  have hle := sortPop_headD_le _ _ ((sortPop_mem_iff _ _).2 hmem)
  calc ((sortPop (calculatePopulationFitness o tp sr pop)).headD default).fitness
      ≤ (evalIndividual o tp sr h).fitness := hle
    _ = fitnessValue o tp sr h.ir := evalIndividual_fitness o tp sr h hir
    _ = h.fitness := hfit.symm

/-- Main invariant of the generation loop behind claim C2: the loop only
ever appends reports, the appended best values form a non-increasing
chain, and when the incoming population head is evaluation-consistent
with bound `bb` the first appended best value is at most `bb`. -/
theorem computeLoop_reports_chain (o : Oracle) (tp : ReverbTargetParams) (numGen : ℕ) :
    ∀ (r gen : ℕ) (s : GAState) (c : ℕ) (reps : List GenerationReport)
      (tr : List (List Individual)) (bnd : Option ℚ),
      (∀ bb, bnd = some bb → ∃ h t, s.population = h :: t ∧ h.ir ≠ [] ∧
          h.fitness = fitnessValue o tp s.sampleRate h.ir ∧ h.fitness ≤ bb) →
      ∃ suf, (computeLoop o tp numGen r gen s c reps tr).reports = reps ++ suf ∧
        suf.Chain' (fun x y => y.best ≤ x.best) ∧
        (∀ bb, bnd = some bb → ∀ x ∈ suf.head?, x.best ≤ bb) := by
  intro r
  induction r with
  | zero =>
    intro gen s c reps tr bnd hbnd
    by_cases hcb : o.hasCallback = true
    · refine ⟨[⟨numGen, numGen, finishBestVal s⟩],
        by simp [computeLoop, finishCompute, hcb], by simp, ?_⟩
      intro bb hb x hx
      simp only [List.head?_cons, Option.mem_def, Option.some.injEq] at hx
      obtain ⟨h, t, hpop, hir, hfit, hle⟩ := hbnd bb hb
      subst hx
      show finishBestVal s ≤ bb
      simp only [finishBestVal, hpop]
      rw [if_neg hir]
      exact hle
    · exact ⟨[], by simp [computeLoop, finishCompute, hcb], by simp, by simp⟩
  | succ r ih =>
    intro gen s c reps tr bnd hbnd
    rw [computeLoop]
    dsimp only
    by_cases h1 : calculatePopulationFitness o tp s.sampleRate s.population = []
    · rw [if_pos h1]
      exact ⟨[], by simp, List.chain'_nil, by simp⟩
    · rw [if_neg h1]
      by_cases h2 : ((sortPop (calculatePopulationFitness o tp s.sampleRate s.population)).headD
          default).ir = []
      · rw [if_pos h2]
        exact ⟨[], by simp, List.chain'_nil, by simp⟩
      · rw [if_neg h2]
        set sorted := sortPop (calculatePopulationFitness o tp s.sampleRate s.population)
          with hsorted
        set b := sorted.headD default with hbdef
        have hsne : sorted ≠ [] := ne_nil_of_headD_ir_ne_nil sorted h2
        obtain ⟨t0, ht0⟩ := headD_cons_self sorted hsne
        rw [← hbdef] at ht0
        have hbOK : b.fitness = fitnessValue o tp s.sampleRate b.ir := by
          have hOK := evalOK_sortPop o tp s.sampleRate _
            (evalOK_calculatePopulationFitness o tp s.sampleRate s.population)
          rw [← hsorted] at hOK
          exact hOK b (hbdef ▸ headD_mem_of_ne_nil sorted hsne) h2
        have hfinb : finishBestVal { s with population := sorted } = b.fitness := by
          simp only [finishBestVal, ht0]
          rw [if_neg h2]
        have hble : ∀ bb, bnd = some bb → b.fitness ≤ bb := by
          intro bb hb
          obtain ⟨h, t, hpop, hir, hfit, hle⟩ := hbnd bb hb
          have := best_le_of_head o tp s.sampleRate s.population h t hpop hir hfit
          rw [← hsorted, ← hbdef] at this
          exact le_trans this hle
        by_cases h3 : b.fitness < 1 / 10 ^ 3
        · rw [if_pos h3]
          by_cases hcb : o.hasCallback = true
          · refine ⟨[⟨gen + 1, numGen, b.fitness⟩,
              ⟨numGen, numGen, finishBestVal { s with population := sorted }⟩],
              by simp [finishCompute, hcb], ?_, ?_⟩
            · rw [List.chain'_cons]
              exact ⟨by rw [hfinb], by simp⟩
            · intro bb hb x hx
              simp only [List.head?_cons, Option.mem_def, Option.some.injEq] at hx
              subst hx
              exact hble bb hb
          · exact ⟨[], by simp [finishCompute, hcb], by simp, by simp⟩
        · rw [if_neg h3]
          by_cases h4 : o.cancelAt gen = true
          · rw [if_pos h4]
            by_cases hcb : o.hasCallback = true
            · refine ⟨[⟨gen + 1, numGen, b.fitness⟩,
                ⟨numGen, numGen, finishBestVal { s with population := sorted }⟩],
                by simp [finishCompute, hcb], ?_, ?_⟩
              · rw [List.chain'_cons]
                exact ⟨by rw [hfinb], by simp⟩
              · intro bb hb x hx
                simp only [List.head?_cons, Option.mem_def, Option.some.injEq] at hx
                subst hx
                exact hble bb hb
            · exact ⟨[], by simp [finishCompute, hcb], by simp, by simp⟩
          · rw [if_neg h4]
            by_cases h5 : (createNextGeneration o { s with population := sorted } c).1 = []
            · rw [if_pos h5]
              by_cases hcb : o.hasCallback = true
              · refine ⟨[⟨gen + 1, numGen, b.fitness⟩], by simp [hcb], by simp, ?_⟩
                intro bb hb x hx
                simp only [List.head?_cons, Option.mem_def, Option.some.injEq] at hx
                subst hx
                exact hble bb hb
              · exact ⟨[], by simp [hcb], by simp, by simp⟩
            · rw [if_neg h5]
              have hpos : 0 < s.popSize := by
                by_contra hh
                exact h5 (by rw [createNextGeneration, if_pos (by simpa using hh)])
              obtain ⟨rest, hrest⟩ :=
                createNextGeneration_head o { s with population := sorted } c (by simpa using hpos)
              have hrest' : (createNextGeneration o { s with population := sorted } c).1
                  = b :: rest := by
                rw [hrest]
              obtain ⟨suf', hrep', hchain', hbnd'⟩ := ih (gen + 1)
                { s with population := (createNextGeneration o { s with population := sorted } c).1 }
                (createNextGeneration o { s with population := sorted } c).2
                (if o.hasCallback = true then reps ++ [⟨gen + 1, numGen, b.fitness⟩] else reps)
                (tr ++ [sorted]) (some b.fitness)
                (by
                  intro bb hb
                  obtain rfl : b.fitness = bb := by injection hb
                  exact ⟨b, rest, hrest', h2, hbOK, le_rfl⟩)
              by_cases hcb : o.hasCallback = true
              · rw [if_pos hcb] at hrep'
                refine ⟨⟨gen + 1, numGen, b.fitness⟩ :: suf', ?_, ?_, ?_⟩
                · rw [if_pos hcb, hrep']
                  simp
                · rw [List.chain'_cons']
                  refine ⟨?_, hchain'⟩
                  intro y hy
                  exact hbnd' b.fitness rfl y hy
                · intro bb hb x hx
                  simp only [List.head?_cons, Option.mem_def, Option.some.injEq] at hx
                  subst hx
                  exact hble bb hb
              · rw [if_neg hcb] at hrep'
                refine ⟨suf', ?_, hchain', ?_⟩
                · rw [if_neg hcb]
                  exact hrep'
                · intro bb hb x hx
                  exact le_trans (hbnd' b.fitness rfl x hx) (hble bb hb)

/-! ## Concrete oracles used by witnesses and counterexamples -/

/-- A degenerate run environment: every random draw is `0`, both
transcendental routines return `0`, cancellation is never requested and
a progress callback is registered. -/
def zeroOracle : Oracle :=
  { rand := fun _ => 0
    pick := fun _ => 0
    lg10 := fun _ => 0
    pw10 := fun _ => 0
    cancelAt := fun _ => false
    hasCallback := true }

/-- A run environment whose real draws are all `1` (so every fair-coin
test `< 0.5` fails and, with mutation rate `0`, no mutation fires). -/
def oneOracle : Oracle :=
  { rand := fun _ => 1
    pick := fun _ => 0
    lg10 := fun _ => 0
    pw10 := fun _ => 0
    cancelAt := fun _ => false
    hasCallback := true }

/-- A run environment that requests cancellation from generation 1 on. -/
def cancelAtOneOracle : Oracle :=
  { rand := fun _ => 0
    pick := fun _ => 0
    lg10 := fun _ => 0
    pw10 := fun _ => 0
    cancelAt := fun g => decide (1 ≤ g)
    hasCallback := true }

/-- A convolution engine whose left-channel `init` always fails. -/
def convFailOracle : ConvOracle :=
  { initOkL := fun _ _ => false
    initOkR := fun _ _ => true
    runL := fun st inp _ => (st, inp)
    runR := fun st inp _ => (st, inp) }

/-- A convolution engine whose `init` always succeeds and whose block
processing echoes the input. -/
def convOkOracle : ConvOracle :=
  { initOkL := fun _ _ => true
    initOkR := fun _ _ => true
    runL := fun st inp _ => (st, inp)
    runR := fun st inp _ => (st, inp) }

/-- A processor state whose readiness flag is raised (a previously
published convolution state the audio path considers live). -/
def cpReadyState : CPState :=
  { ConvolutionProcessor.construct with isIRReady := true }

/-! ## Claim theorems -/

/-- C2: for every run of `compute` with populationSize 50, mutationRate
0.001, sampleRate 44100 and target T60 = 0.4 s (any target EDT/C80/bass
ratio, any generation budget, any random draws, any deterministic
`log10`/`pow10` behaviour), the best-fitness values of consecutively
emitted generation reports are non-increasing: elitism plus the
deterministic re-evaluation of the unchanged elite IRs makes the
reported best fitness monotonically non-increasing (the final summary
report repeats the last best value and respects the same bound; the
initial sentinel report is excluded by the `drop 1`). -/
theorem C2_bestFitness_monotone (o : Oracle) (numGen : ℕ) (edt c80 br : ℚ) :
    (((compute o (initGA 50 (1 / 1000) 44100)
        { t60 := 2 / 5, edt := edt, c80 := c80, br := br } numGen).reports).drop 1).Chain'
      (fun x y => y.best ≤ x.best) := by
  rw [compute, if_neg (by decide)]
  dsimp only
  obtain ⟨suf, hrep, hchain, -⟩ := computeLoop_reports_chain o
    { t60 := 2 / 5, edt := edt, c80 := c80, br := br } numGen numGen 0
    (initializePopulation o (2 / 5) (initGA 50 (1 / 1000) 44100) 0).1
    (initializePopulation o (2 / 5) (initGA 50 (1 / 1000) 44100) 0).2
    (if o.hasCallback = true then [⟨0, numGen, sentinelFitness⟩] else []) [] none
    (by simp)
  rw [hrep]
  by_cases hcb : o.hasCallback = true
  · rw [if_pos hcb]
    simpa using hchain
  · rw [if_neg hcb]
    simpa [List.drop_one] using hchain.tail

/-- C5: `compute` with a non-positive population size returns an empty
sequence immediately: no report is emitted, no generation runs (empty
trace), and the state — in particular the population — is untouched. -/
theorem C5_popSize_guard (o : Oracle) (s : GAState) (tp : ReverbTargetParams)
    (numGen : ℕ) (h : s.popSize ≤ 0) :
    compute o s tp numGen = ⟨[], [], .popSizeNonPositive, s, []⟩ := by
  rw [compute, if_pos h]

/-- Witness for C5 at population size 0. -/
theorem C5_popSize_guard_witness :
    (initGA 0 (1 / 1000) 44100).popSize ≤ 0 ∧
      compute zeroOracle (initGA 0 (1 / 1000) 44100) {} 250
        = ⟨[], [], .popSizeNonPositive, initGA 0 (1 / 1000) 44100, []⟩ :=
  ⟨le_refl 0, C5_popSize_guard zeroOracle (initGA 0 (1 / 1000) 44100) {} 250 (le_refl 0)⟩

/-- C9: a `process` call made while the session is not ready writes
all-zero samples to both output channels and leaves the whole state
untouched, for every sample count and arbitrary input buffers. -/
theorem C9_process_silence (o : ConvOracle) (inL inR : List ℚ) (numSamples : ℕ)
    (s : CPState) (hn : 0 < numSamples) (hready : s.isIRReady = false) :
    ConvolutionProcessor.process o inL inR numSamples s
      = (s, List.replicate numSamples 0, List.replicate numSamples 0) := by
  rw [ConvolutionProcessor.process, if_pos hready]

/-- Witness for C9: the freshly constructed processor (before any
`setIR`) zeroes a 4-sample block. -/
theorem C9_process_silence_witness :
    0 < 4 ∧ ConvolutionProcessor.construct.isIRReady = false ∧
      ConvolutionProcessor.process convOkOracle [1, 2, 3, 4] [5, 6, 7, 8] 4
          ConvolutionProcessor.construct
        = (ConvolutionProcessor.construct, List.replicate 4 0, List.replicate 4 0) :=
  ⟨by decide, rfl,
    C9_process_silence convOkOracle [1, 2, 3, 4] [5, 6, 7, 8] 4
      ConvolutionProcessor.construct (by decide) rfl⟩

theorem processSeq_silence (o : ConvOracle) (calls : List (List ℚ × List ℚ × ℕ))
    (s : CPState) (h : s.isIRReady = false) :
    (processSeq o calls s).1 = s ∧
    (processSeq o calls s).2
      = calls.map fun call => (List.replicate call.2.2 0, List.replicate call.2.2 0) := by
  induction calls generalizing s with
  | nil => exact ⟨rfl, rfl⟩
  | cons x xs ih =>
    have hstep : ConvolutionProcessor.process o x.1 x.2.1 x.2.2 s
        = (s, List.replicate x.2.2 0, List.replicate x.2.2 0) := by
      rw [ConvolutionProcessor.process, if_pos h]
    rw [processSeq]
    dsimp only
    rw [hstep]
    exact ⟨(ih s h).1, by rw [List.map_cons, (ih s h).2]⟩

/-- C10: after `prepare` returns, the session is not ready — both
channel convolvers reset, readiness flag false, generating flag false,
progress 0 — and every subsequent sequence of `process` calls (i.e.
until some later successful `setIR` intervenes) outputs pure silence on
both channels, so any previously published IR is discarded. -/
theorem C10_prepare_resets (sr : ℚ) (mbs : ℕ) (s : CPState) (o : ConvOracle)
    (calls : List (List ℚ × List ℚ × ℕ)) :
    (ConvolutionProcessor.prepare sr mbs s).convolverL = .reset ∧
    (ConvolutionProcessor.prepare sr mbs s).convolverR = .reset ∧
    (ConvolutionProcessor.prepare sr mbs s).isIRReady = false ∧
    (ConvolutionProcessor.prepare sr mbs s).isGenerating = false ∧
    (ConvolutionProcessor.prepare sr mbs s).progress = 0 ∧
    (processSeq o calls (ConvolutionProcessor.prepare sr mbs s)).2
      = calls.map fun call => (List.replicate call.2.2 0, List.replicate call.2.2 0) :=
  ⟨rfl, rfl, rfl, rfl, rfl,
    (processSeq_silence o calls (ConvolutionProcessor.prepare sr mbs s) rfl).2⟩

/-- C1 counterexample: `setIR` with the non-empty IR `[1]` on a session
whose readiness flag is raised, in an environment where the left
channel's engine initialization fails, does **not** leave the previously
published readiness flag in effect: the flag is cleared. -/
theorem C1_counterexample :
    (ConvolutionProcessor.setIR convFailOracle [1] cpReadyState).isIRReady
      ≠ cpReadyState.isIRReady := by
  rw [ConvolutionProcessor.setIR, if_neg (by simp)]
  simp [convFailOracle, cpReadyState]

/-- C1 amended: for every call to `setIR` with a non-empty IR, both
channel engines are re-initialized with that IR and the configured block
size, and the readiness flag is *stored anew* as the conjunction of the
two initialization results — it is raised only if both succeed
(all-or-nothing for readiness), but on failure it is lowered rather than
left as it was before the call. -/
theorem C1_setIR_all_or_nothing (o : ConvOracle) (ir : List ℚ) (s : CPState)
    (h : ir ≠ []) :
    (ConvolutionProcessor.setIR o ir s).isIRReady
      = (o.initOkL s.maxBlockSize ir && o.initOkR s.maxBlockSize ir) ∧
    (ConvolutionProcessor.setIR o ir s).convolverL
      = .inited s.maxBlockSize ir (o.initOkL s.maxBlockSize ir) ∧
    (ConvolutionProcessor.setIR o ir s).convolverR
      = .inited s.maxBlockSize ir (o.initOkR s.maxBlockSize ir) := by
  rw [ConvolutionProcessor.setIR, if_neg h]
  exact ⟨rfl, rfl, rfl⟩

/-- Witness for the amended C1 at the failing-left-channel engine. -/
theorem C1_setIR_all_or_nothing_witness :
    ([1] : List ℚ) ≠ [] ∧
    ((ConvolutionProcessor.setIR convFailOracle [1] cpReadyState).isIRReady
        = (convFailOracle.initOkL cpReadyState.maxBlockSize [1]
            && convFailOracle.initOkR cpReadyState.maxBlockSize [1]) ∧
      (ConvolutionProcessor.setIR convFailOracle [1] cpReadyState).convolverL
        = .inited cpReadyState.maxBlockSize [1]
            (convFailOracle.initOkL cpReadyState.maxBlockSize [1]) ∧
      (ConvolutionProcessor.setIR convFailOracle [1] cpReadyState).convolverR
        = .inited cpReadyState.maxBlockSize [1]
            (convFailOracle.initOkR cpReadyState.maxBlockSize [1])) :=
  ⟨by simp, C1_setIR_all_or_nothing convFailOracle [1] cpReadyState (by simp)⟩

/-- An eight-individual population with distinct one-sample IRs and
fitness `0`, mutation rate `0`. -/
def gaEight : GAState :=
  { population :=
      [⟨[1], 0⟩, ⟨[2], 0⟩, ⟨[3], 0⟩, ⟨[4], 0⟩, ⟨[5], 0⟩, ⟨[6], 0⟩, ⟨[7], 0⟩, ⟨[8], 0⟩]
    popSize := 8
    mutationRate := 0
    sampleRate := 44100 }

/-- C3 counterexample: for N = 8 the claimed elite count
`min N (max 1 round(0.20 * N))` is `2` (since `round 1.6 = 2`), but the
individual at index 1 of the next generation produced by the code is a
freshly built child, not the unchanged copy of the index-1 individual:
the code floors (`8 * 20 / 100 = 1` in integer division). -/
theorem C3_counterexample :
    min 8 (max 1 (round ((20 / 100 : ℚ) * 8)).toNat) = 2 ∧
    (createNextGeneration oneOracle gaEight 0).1.getD 1 default
      ≠ gaEight.population.getD 1 default := by
  constructor
  · have h1 : round ((20 / 100 : ℚ) * 8) = 2 := by
      rw [round_eq, Int.floor_eq_iff] <;> norm_num
    rw [h1]
    rfl
  · have h8 : Int.toNat 8 * 20 / 100 = 1 := by decide
    norm_num [createNextGeneration, eliteCountOf, makeChildren, crossover, mutate,
      mutateIR, gaEight, oneOracle, sentinelFitness, Individual.mk.injEq, h8,
      List.range_succ, List.range_zero]

theorem eliteCountOf_spec (n : ℕ) :
    eliteCountOf n = min n (max 1 (⌊(20 / 100 : ℚ) * n⌋).toNat) := by
  have hq : (20 / 100 : ℚ) * n = (n : ℚ) / 5 := by
    rw [show (20 / 100 : ℚ) = 1 / 5 by norm_num]
    ring
  have hfloor : ⌊(n : ℚ) / 5⌋ = ((n / 5 : ℕ) : ℤ) := by
    rw [Int.floor_eq_iff]
    constructor
    · rw [le_div_iff (by norm_num : (0 : ℚ) < 5)]
      exact_mod_cast Nat.div_mul_le_self n 5
    · rw [div_lt_iff (by norm_num : (0 : ℚ) < 5)]
      exact_mod_cast (by omega : n < (n / 5 + 1) * 5)
  have hk : n * 20 / 100 = n / 5 := by omega
  rw [hq, hfloor, Int.toNat_natCast]
  unfold eliteCountOf
  dsimp only
  rw [hk]
  split_ifs <;> omega

/-- C3 amended: for every population size N > 0, the number of
individuals copied unchanged at the head of the next generation is the
elite count `max(1, floor(0.20 * N))` capped at N (integer division, not
rounding): the prefix of that length is copied verbatim, the generation
keeps exactly N individuals, and in particular the elite count is 2 for
N = 10 and 1 for N = 1. -/
theorem C3_elite_count (o : Oracle) (s : GAState) (c : ℕ)
    (hpos : 0 < s.popSize) (hlen : s.population.length = s.popSize.toNat) :
    (createNextGeneration o s c).1.take
        (min s.popSize.toNat (max 1 (⌊(20 / 100 : ℚ) * s.popSize.toNat⌋).toNat))
      = s.population.take
        (min s.popSize.toNat (max 1 (⌊(20 / 100 : ℚ) * s.popSize.toNat⌋).toNat)) ∧
    (createNextGeneration o s c).1.length = s.popSize.toNat ∧
    eliteCountOf 10 = 2 ∧ eliteCountOf 1 = 1 := by
  refine ⟨?_, createNextGeneration_length o s c hpos, by decide, by decide⟩
  rw [← eliteCountOf_spec]
  have htake : ((List.range (eliteCountOf s.popSize.toNat)).map
      fun i => s.population.getD i default)
      = s.population.take (eliteCountOf s.popSize.toNat) :=
    range_map_getD_eq_take _ _ (by rw [hlen]; exact eliteCountOf_le _)
  rw [createNextGeneration, if_neg (by omega)]
  dsimp only
  rw [List.take_left' (by simp), htake]

/-- Witness for the amended C3 at N = 10. -/
theorem C3_elite_count_witness :
    (0 < (initGA 10 0 44100).popSize ∧
      (initGA 10 0 44100).population.length = (initGA 10 0 44100).popSize.toNat) ∧
    ((createNextGeneration zeroOracle (initGA 10 0 44100) 0).1.take
        (min (initGA 10 0 44100).popSize.toNat
          (max 1 (⌊(20 / 100 : ℚ) * (initGA 10 0 44100).popSize.toNat⌋).toNat))
      = (initGA 10 0 44100).population.take
        (min (initGA 10 0 44100).popSize.toNat
          (max 1 (⌊(20 / 100 : ℚ) * (initGA 10 0 44100).popSize.toNat⌋).toNat)) ∧
    (createNextGeneration zeroOracle (initGA 10 0 44100) 0).1.length
      = (initGA 10 0 44100).popSize.toNat ∧
    eliteCountOf 10 = 2 ∧ eliteCountOf 1 = 1) :=
  ⟨⟨by decide, by simp [initGA]⟩,
    C3_elite_count zeroOracle (initGA 10 0 44100) 0 (by decide) (by simp [initGA])⟩

/-- C4 counterexample: the decay curve `[0, -6, -6, -6]` never reaches
the −35 dB threshold anywhere in its length, yet `calculateT60` at
sample rate 1 returns 4 seconds, not 0 (the −35 dB index is mapped to
the last index, which lies strictly after the −5 dB crossing at index
1). -/
theorem C4_counterexample :
    (∀ v ∈ ([0, -6, -6, -6] : List ℚ), ¬ v ≤ -35) ∧
    calculateT60 [0, -6, -6, -6] 1 = 4 := by
  constructor
  · intro v hv
    simp only [List.mem_cons, List.not_mem_nil, or_false] at hv
    rcases hv with rfl | rfl | rfl | rfl <;> norm_num
  · norm_num [calculateT60, findTimeForDB, findTimeForDBAux]

/-- C4 amended: `calculateT60` (resp. `calculateEDT`) returns 0 exactly
when the lower-threshold crossing index (−35 dB resp. −10 dB, with a
never-crossed threshold mapped to the curve's last index) is not
strictly after the upper-threshold crossing index (−5 dB resp. 0 dB); a
curve that never reaches the lower threshold can still yield a nonzero
time when its upper threshold is crossed before the last index. -/
theorem C4_zero_iff_no_crossing_gap (edc : List ℚ) (sampleRate : ℚ)
    (hsr : 0 < sampleRate) :
    (calculateT60 edc sampleRate = 0
      ↔ findTimeForDB edc (-35) ≤ findTimeForDB edc (-5)) ∧
    (calculateEDT edc sampleRate = 0
      ↔ findTimeForDB edc (-10) ≤ findTimeForDB edc 0) := by
  constructor
  · rw [calculateT60]
    split_ifs with h
    · rw [Int.cast_nonpos] at h
      exact ⟨fun _ => by omega, fun _ => rfl⟩
    · rw [not_le] at h
      have hpos : (0 : ℚ) <
          ((findTimeForDB edc (-35) - findTimeForDB edc (-5) : ℤ) : ℚ) / sampleRate * 2 :=
        mul_pos (div_pos h hsr) (by norm_num)
      refine ⟨fun hzero => absurd hzero.symm hpos.ne, fun hle => absurd ?_ h.not_le⟩
      exact_mod_cast sub_nonpos.mpr hle
  · rw [calculateEDT]
    split_ifs with h
    · rw [Int.cast_nonpos] at h
      exact ⟨fun _ => by omega, fun _ => rfl⟩
    · rw [not_le] at h
      have hpos : (0 : ℚ) <
          ((findTimeForDB edc (-10) - findTimeForDB edc 0 : ℤ) : ℚ) / sampleRate * 6 :=
        mul_pos (div_pos h hsr) (by norm_num)
      refine ⟨fun hzero => absurd hzero.symm hpos.ne, fun hle => absurd ?_ h.not_le⟩
      exact_mod_cast sub_nonpos.mpr hle

/-- Witness for the amended C4 on the curve `[0, -40]` at rate 1. -/
theorem C4_zero_iff_no_crossing_gap_witness :
    (0 : ℚ) < 1 ∧
    ((calculateT60 [0, -40] 1 = 0
        ↔ findTimeForDB [0, -40] (-35) ≤ findTimeForDB [0, -40] (-5)) ∧
      (calculateEDT [0, -40] 1 = 0
        ↔ findTimeForDB [0, -40] (-10) ≤ findTimeForDB [0, -40] 0)) :=
  ⟨one_pos, C4_zero_iff_no_crossing_gap [0, -40] 1 one_pos⟩

theorem schroederTotalEnergy_zeros : schroederTotalEnergy [0, 0, 0] = 0 := by
  norm_num [schroederTotalEnergy, cumsum]

/-- C8: `calculateSchroederDecay` returns an empty curve exactly on
empty input, and on every non-empty input whose total energy lies below
the `1e-20` floor (in particular an all-zero IR) it returns a curve of
exactly the input's length with every sample equal to −100 dB. -/
theorem C8_schroeder_floor (lg : ℚ → ℚ) (ir : List ℚ) :
    (calculateSchroederDecay lg ir = [] ↔ ir = []) ∧
    (ir ≠ [] → schroederTotalEnergy ir < minEnergy →
      calculateSchroederDecay lg ir = List.replicate ir.length (-100)) := by
  refine ⟨calculateSchroederDecay_eq_nil_iff lg ir, ?_⟩
  intro hne hlow
  have hlow' : ((cumsum ((ir.map fun x => x * x).reverse) 0).reverse).headD 0 < minEnergy :=
    hlow
  rw [calculateSchroederDecay, if_neg hne]
  dsimp only
  rw [if_pos hlow']

/-- Witness for C8 on the all-zero three-sample IR. -/
theorem C8_schroeder_floor_witness :
    (([0, 0, 0] : List ℚ) ≠ [] ∧ schroederTotalEnergy [0, 0, 0] < minEnergy) ∧
      calculateSchroederDecay (fun _ => 0) [0, 0, 0]
        = List.replicate ([0, 0, 0] : List ℚ).length (-100) :=
  ⟨⟨by simp, by rw [schroederTotalEnergy_zeros]; norm_num [minEnergy]⟩,
    (C8_schroeder_floor (fun _ => 0) [0, 0, 0]).2 (by simp)
      (by rw [schroederTotalEnergy_zeros]; norm_num [minEnergy])⟩

/-- Invariant propagation through the generation loop: the population
keeps exactly `popSize` individuals with IRs of length `L` in every
per-generation snapshot and in the final state. -/
theorem computeLoop_popInv (o : Oracle) (tp : ReverbTargetParams) (numGen L : ℕ) :
    ∀ (r gen : ℕ) (s : GAState) (c : ℕ) (reps : List GenerationReport)
      (tr : List (List Individual)),
      0 < s.popSize →
      PopInv L s.popSize.toNat s.population →
      (∀ pop ∈ tr, PopInv L s.popSize.toNat pop) →
      (∀ pop ∈ (computeLoop o tp numGen r gen s c reps tr).trace,
          PopInv L s.popSize.toNat pop) ∧
      PopInv L s.popSize.toNat (computeLoop o tp numGen r gen s c reps tr).state.population := by
  intro r
  induction r with
  | zero =>
    intro gen s c reps tr hpos hinv htr
    exact ⟨htr, hinv⟩
  | succ r ih =>
    intro gen s c reps tr hpos hinv htr
    rw [computeLoop]
    dsimp only
    have hinv1 : PopInv L s.popSize.toNat
        (calculatePopulationFitness o tp s.sampleRate s.population) :=
      calculatePopulationFitness_popInv o tp s.sampleRate s.population L _ hinv
    by_cases h1 : calculatePopulationFitness o tp s.sampleRate s.population = []
    · exfalso
      rw [h1] at hinv1
      have h := hinv1.1
      simp only [List.length_nil] at h
      omega
    · rw [if_neg h1]
      have hinv2 : PopInv L s.popSize.toNat
          (sortPop (calculatePopulationFitness o tp s.sampleRate s.population)) :=
        sortPop_popInv _ L _ hinv1
      have htr1 : ∀ pop ∈ tr ++ [sortPop (calculatePopulationFitness o tp s.sampleRate
          s.population)], PopInv L s.popSize.toNat pop := by
        intro pop hpop
        rcases List.mem_append.mp hpop with hmem | hmem
        · exact htr pop hmem
        · rw [List.mem_singleton] at hmem
          subst hmem
          exact hinv2
      by_cases h2 : ((sortPop (calculatePopulationFitness o tp s.sampleRate
          s.population)).headD default).ir = []
      · rw [if_pos h2]
        exact ⟨htr1, hinv2⟩
      · rw [if_neg h2]
        by_cases h3 : ((sortPop (calculatePopulationFitness o tp s.sampleRate
            s.population)).headD default).fitness < 1 / 10 ^ 3
        · rw [if_pos h3]
          exact ⟨htr1, hinv2⟩
        · rw [if_neg h3]
          by_cases h4 : o.cancelAt gen = true
          · rw [if_pos h4]
            exact ⟨htr1, hinv2⟩
          · rw [if_neg h4]
            have hinv3 : PopInv L s.popSize.toNat
                (createNextGeneration o
                  { s with
                    population :=
                      sortPop (calculatePopulationFitness o tp s.sampleRate s.population) }
                  c).1 :=
              createNextGeneration_popInv o _ c L hpos hinv2
            by_cases h5 : (createNextGeneration o
                { s with
                  population :=
                    sortPop (calculatePopulationFitness o tp s.sampleRate s.population) }
                c).1 = []
            · exfalso
              rw [h5] at hinv3
              have h := hinv3.1
              simp only [List.length_nil] at h
              omega
            · rw [if_neg h5]
              exact ih (gen + 1) _ _ _ _ hpos hinv3 htr1

/-- The IR length of the amended claim C6:
`max(1024, floor(1.5 * clampedT60 * sampleRate))`. -/
def irLengthSpec (t60 sampleRate : ℚ) : ℕ :=
  max 1024 (⌊(3 / 2) * (if t60 ≤ 1 / 10 ^ 4 then 1 / 10 ^ 3 else t60) * sampleRate⌋).toNat

theorem irLengthOf_eq_spec (t sampleRate : ℚ) :
    irLengthOf t sampleRate = irLengthSpec t sampleRate := by
  unfold irLengthOf irLengthSpec
  dsimp only
  rw [show (3 / 2 : ℚ) * (if t ≤ 1 / 10 ^ 4 then 1 / 10 ^ 3 else t) * sampleRate
      = (if t ≤ 1 / 10 ^ 4 then 1 / 10 ^ 3 else t) * (3 / 2) * sampleRate by ring]
  split_ifs <;> omega

/-- C6 amended: throughout every run of `compute` with population size
N > 0, the population holds exactly N individuals in every generation
(every per-generation snapshot and the final state), and every
individual's impulse response has length
`max(1024, floor(1.5 * clampedT60 * sampleRate))` — the code truncates
`targetT60 * 1.5 * sampleRate` rather than rounding it; initialization,
elitist copying, crossover and mutation all preserve both. -/
theorem C6_population_invariant (o : Oracle) (s : GAState)
    (tp : ReverbTargetParams) (numGen : ℕ) (hpos : 0 < s.popSize)
    (hlen : s.population.length = s.popSize.toNat) :
    (∀ pop ∈ (compute o s tp numGen).trace,
        PopInv (irLengthSpec tp.t60 s.sampleRate) s.popSize.toNat pop) ∧
    PopInv (irLengthSpec tp.t60 s.sampleRate) s.popSize.toNat
      (compute o s tp numGen).state.population := by
  rw [compute, if_neg (by omega)]
  dsimp only
  rw [← irLengthOf_eq_spec]
  have hne : s.population ≠ [] := by
    intro h
    rw [h] at hlen
    simp only [List.length_nil] at hlen
    omega
  have hinit := initializePopulation_population o tp.t60 s 0 hne
  rw [hlen] at hinit
  have hpos' : 0 < (initializePopulation o tp.t60 s 0).1.popSize := by
    rw [initializePopulation_popSize]
    exact hpos
  have hinit' : PopInv (irLengthOf tp.t60 s.sampleRate)
      (initializePopulation o tp.t60 s 0).1.popSize.toNat
      (initializePopulation o tp.t60 s 0).1.population := by
    rw [initializePopulation_popSize]
    exact hinit
  have hmain := computeLoop_popInv o tp numGen (irLengthOf tp.t60 s.sampleRate)
    numGen 0 (initializePopulation o tp.t60 s 0).1 (initializePopulation o tp.t60 s 0).2
    (if o.hasCallback = true then [⟨0, numGen, sentinelFitness⟩] else []) []
    hpos' hinit' (by simp)
  rw [initializePopulation_popSize] at hmain
  exact hmain

/-- Witness for the amended C6 (population size 1, default targets, zero
generations). -/
theorem C6_population_invariant_witness :
    (0 < (initGA 1 (1 / 1000) 44100).popSize ∧
      (initGA 1 (1 / 1000) 44100).population.length
        = (initGA 1 (1 / 1000) 44100).popSize.toNat) ∧
    ((∀ pop ∈ (compute zeroOracle (initGA 1 (1 / 1000) 44100)
          ({ } : ReverbTargetParams) 0).trace,
        PopInv (irLengthSpec ({ } : ReverbTargetParams).t60
            (initGA 1 (1 / 1000) 44100).sampleRate)
          (initGA 1 (1 / 1000) 44100).popSize.toNat pop) ∧
      PopInv (irLengthSpec ({ } : ReverbTargetParams).t60
          (initGA 1 (1 / 1000) 44100).sampleRate)
        (initGA 1 (1 / 1000) 44100).popSize.toNat
        (compute zeroOracle (initGA 1 (1 / 1000) 44100)
          ({ } : ReverbTargetParams) 0).state.population) :=
  ⟨⟨by decide, by simp [initGA]⟩,
    C6_population_invariant zeroOracle (initGA 1 (1 / 1000) 44100)
      ({ } : ReverbTargetParams) 0 (by decide) (by simp [initGA])⟩

/-- Population-1 algorithm state at sample rate 687, where the product
`1.5 * t60 * sampleRate` is the half-integer `1030.5`, separating the
code's truncation from the claimed rounding. -/
def gaOne687 : GAState := initGA 1 0 687

theorem irLengthOf_one_687 : irLengthOf 1 (687 : ℚ) = 1030 := by
  unfold irLengthOf
  dsimp only
  rw [if_neg (by norm_num : ¬ (1 : ℚ) ≤ 1 / 10 ^ 4)]
  rw [show (1 : ℚ) * (3 / 2) * 687 = 2061 / 2 by norm_num]
  rw [show ⌊(2061 / 2 : ℚ)⌋ = 1030 by rw [Int.floor_eq_iff]; constructor <;> norm_num]
  decide

/-- C6 counterexample: in the run of `compute` with population size 1,
target T60 = 1 s and sample rate 687, the initialized individual's IR
has 1030 samples — `floor(1030.5)` — whereas the claimed formula
`max(1024, round(1.5 * t60 * sampleRate))` demands `round(1030.5) =
1031`. -/
theorem C6_counterexample :
    ¬ (∀ ind ∈ (compute zeroOracle gaOne687 { t60 := 1 } 0).state.population,
        ind.ir.length = max 1024 (round ((3 / 2) * (1 : ℚ) * 687)).toNat) := by
  intro hall
  have hround : (round ((3 / 2) * (1 : ℚ) * 687)).toNat = 1031 := by
    rw [round_eq, show (3 / 2) * (1 : ℚ) * 687 + 1 / 2 = 1031 by norm_num]
    rw [show ⌊(1031 : ℚ)⌋ = 1031 by rw [Int.floor_eq_iff]; constructor <;> norm_num]
    decide
  obtain ⟨hlen2, hmem2⟩ := initializePopulation_population zeroOracle 1 gaOne687 0
    (by simp [gaOne687, initGA])
  have hne : (initializePopulation zeroOracle 1 gaOne687 0).1.population ≠ [] := by
    intro h
    rw [h] at hlen2
    simp [gaOne687, initGA] at hlen2
  have hmem := headD_mem_of_ne_nil _ hne
  have hL := hmem2 _ hmem
  have hclaim := hall
    ((initializePopulation zeroOracle 1 gaOne687 0).1.population.headD default) hmem
  rw [hclaim, hround] at hL
  have hsr : irLengthOf 1 gaOne687.sampleRate = 1030 := irLengthOf_one_687
  rw [hsr] at hL
  omega

theorem finishIR_eq_headD (s : GAState)
    (hir : (s.population.headD default).ir ≠ []) :
    finishIR s = (s.population.headD default).ir := by
  rcases hpop : s.population with _ | ⟨b, t⟩
  · rw [hpop] at hir
    exact absurd rfl hir
  · rw [hpop] at hir
    simp only [List.headD_cons] at hir
    have hb : finishIR s = if b.ir = [] then [] else b.ir := by
      unfold finishIR
      rw [hpop]
    rw [hb, if_neg hir]
    simp only [List.headD_cons]

theorem finishCompute_getLast (o : Oracle) (numGen : ℕ) (s : GAState)
    (reps : List GenerationReport) (tr : List (List Individual)) (ex : ExitReason)
    (hcb : o.hasCallback = true) :
    (finishCompute o numGen s reps tr ex).reports.getLast?
      = some ⟨numGen, numGen, finishBestVal s⟩ := by
  show (if o.hasCallback = true
      then reps ++ [⟨numGen, numGen, finishBestVal s⟩] else reps).getLast? = _
  rw [if_pos hcb, List.getLast?_concat]

/-- Core of claim C7: with the cancellation flag first observed true at
generation `k` (requested once generations `< k` had completed), the
loop — entered at generation `gen ≤ k` with `k` strictly inside the
budget — exits by cancellation exactly at generation `k` or by earlier
convergence; it returns the final population head's non-empty IR, adds
at most `k + 1 - gen` generation snapshots, and (when a callback is
registered) ends its report list with the final
`generationIndex = numGenerations` report. -/
theorem computeLoop_cancel (o : Oracle) (tp : ReverbTargetParams) (numGen L k : ℕ)
    (hL : 0 < L) (hcancel : ∀ g, o.cancelAt g = decide (k ≤ g)) :
    ∀ (r gen : ℕ) (s : GAState) (c : ℕ) (reps : List GenerationReport)
      (tr : List (List Individual)),
      0 < s.popSize →
      PopInv L s.popSize.toNat s.population →
      gen + r = numGen →
      gen ≤ k → k < numGen →
      ((computeLoop o tp numGen r gen s c reps tr).exitReason = .cancelled k ∨
        ∃ g, gen ≤ g ∧ g ≤ k ∧
          (computeLoop o tp numGen r gen s c reps tr).exitReason = .converged g) ∧
      (computeLoop o tp numGen r gen s c reps tr).ir ≠ [] ∧
      (computeLoop o tp numGen r gen s c reps tr).ir
        = ((computeLoop o tp numGen r gen s c reps tr).state.population.headD default).ir ∧
      (computeLoop o tp numGen r gen s c reps tr).trace.length
        ≤ tr.length + (k + 1 - gen) ∧
      (o.hasCallback = true → ∃ bq,
        (computeLoop o tp numGen r gen s c reps tr).reports.getLast?
          = some ⟨numGen, numGen, bq⟩) := by
  intro r
  induction r with
  | zero =>
    intro gen s c reps tr hpos hinv hsum hgk hkn
    omega
  | succ r ih =>
    intro gen s c reps tr hpos hinv hsum hgk hkn
    rw [computeLoop]
    dsimp only
    have hinv1 := calculatePopulationFitness_popInv o tp s.sampleRate s.population L _ hinv
    have h1 : calculatePopulationFitness o tp s.sampleRate s.population ≠ [] := by
      intro h
      rw [h] at hinv1
      have hh := hinv1.1
      simp only [List.length_nil] at hh
      omega
    rw [if_neg h1]
    have hinv2 := sortPop_popInv _ L _ hinv1
    have hsne : sortPop (calculatePopulationFitness o tp s.sampleRate s.population) ≠ [] := by
      intro h
      rw [h] at hinv2
      have hh := hinv2.1
      simp only [List.length_nil] at hh
      omega
    have hbmem := headD_mem_of_ne_nil _ hsne
    have h2 : ((sortPop (calculatePopulationFitness o tp s.sampleRate
        s.population)).headD default).ir ≠ [] := by
      intro h
      have hl := hinv2.2 _ hbmem
      rw [h] at hl
      simp only [List.length_nil] at hl
      omega
    rw [if_neg h2]
    by_cases h3 : ((sortPop (calculatePopulationFitness o tp s.sampleRate
        s.population)).headD default).fitness < 1 / 10 ^ 3
    · rw [if_pos h3]
      refine ⟨Or.inr ⟨gen, le_refl gen, hgk, rfl⟩, ?_, ?_, ?_, ?_⟩
      · show finishIR _ ≠ []
        rw [finishIR_eq_headD _ h2]
        exact h2
      · show finishIR _ = _
        exact finishIR_eq_headD _ h2
      · show (tr ++ [_]).length ≤ _
        simp only [List.length_append, List.length_singleton]
        omega
      · intro hcb
        exact ⟨finishBestVal _, finishCompute_getLast o numGen _ _ _ _ hcb⟩
    · rw [if_neg h3]
      rcases Nat.lt_or_ge gen k with hgklt | hgkge
      · have hc : ¬ (o.cancelAt gen = true) := by
          rw [hcancel]
          simp only [decide_eq_true_eq]
          omega
        rw [if_neg hc]
        have hinv3 := createNextGeneration_popInv o
          { s with population :=
              sortPop (calculatePopulationFitness o tp s.sampleRate s.population) }
          c L hpos hinv2
        have h5 : (createNextGeneration o
            { s with population :=
                sortPop (calculatePopulationFitness o tp s.sampleRate s.population) }
            c).1 ≠ [] := by
          intro h
          rw [h] at hinv3
          have hh := hinv3.1
          simp only [List.length_nil] at hh
          omega
        rw [if_neg h5]
        obtain ⟨hA, hB, hC, hD, hE⟩ := ih (gen + 1)
          { s with
            population := (createNextGeneration o
              { s with
                population :=
                  sortPop (calculatePopulationFitness o tp s.sampleRate s.population) }
              c).1 }
          (createNextGeneration o
            { s with
              population :=
                sortPop (calculatePopulationFitness o tp s.sampleRate s.population) }
            c).2
          (if o.hasCallback = true then reps ++ [⟨gen + 1, numGen,
            ((sortPop (calculatePopulationFitness o tp s.sampleRate s.population)).headD
              default).fitness⟩] else reps)
          (tr ++ [sortPop (calculatePopulationFitness o tp s.sampleRate s.population)])
          hpos hinv3 (by omega) (by omega) hkn
        refine ⟨?_, hB, hC, ?_, hE⟩
        · rcases hA with hA | ⟨g, hg1, hg2, hg3⟩
          · exact Or.inl hA
          · exact Or.inr ⟨g, by omega, hg2, hg3⟩
        · simp only [List.length_append, List.length_singleton] at hD
          omega
      · have hgke : gen = k := by omega
        have hc : o.cancelAt gen = true := by
          rw [hcancel]
          simp only [decide_eq_true_eq]
          omega
        rw [if_pos hc]
        subst hgke
        refine ⟨Or.inl rfl, ?_, ?_, ?_, ?_⟩
        · show finishIR _ ≠ []
          rw [finishIR_eq_headD _ h2]
          exact h2
        · show finishIR _ = _
          exact finishIR_eq_headD _ h2
        · show (tr ++ [_]).length ≤ _
          simp only [List.length_append, List.length_singleton]
          omega
        · intro hcb
          exact ⟨finishBestVal _, finishCompute_getLast o numGen _ _ _ _ hcb⟩

/-- C7: if cancellation is requested during a `compute` run once at
least one generation has completed (the per-generation flag check reads
false before generation `k ≥ 1` and true from generation `k` on, with
`k + 1 < maxGenerations`), the run terminates before reaching
`maxGenerations`: it exits by cancellation observed exactly at the
once-per-generation check of generation `k` — after that generation's
evaluation/sort pass — unless it had already converged at some earlier
generation `g ≤ k`; strictly fewer than `maxGenerations` generations run
(at most `k + 1`), the final report with
`generationIndex = maxGenerations` is emitted to a registered callback,
and the returned impulse response is the current best individual's
non-empty IR. -/
theorem C7_cancellation (o : Oracle) (s : GAState) (tp : ReverbTargetParams)
    (numGen k : ℕ) (hpos : 0 < s.popSize)
    (hlen : s.population.length = s.popSize.toNat)
    (hcancel : ∀ g, o.cancelAt g = decide (k ≤ g))
    (hk1 : 1 ≤ k) (hk2 : k + 1 < numGen) :
    ((compute o s tp numGen).exitReason = .cancelled k ∨
      ∃ g ≤ k, (compute o s tp numGen).exitReason = .converged g) ∧
    (compute o s tp numGen).ir ≠ [] ∧
    (compute o s tp numGen).ir
      = ((compute o s tp numGen).state.population.headD default).ir ∧
    (compute o s tp numGen).trace.length ≤ k + 1 ∧
    (compute o s tp numGen).trace.length < numGen ∧
    (o.hasCallback = true → ∃ bq,
      (compute o s tp numGen).reports.getLast? = some ⟨numGen, numGen, bq⟩) := by
  rw [compute, if_neg (by omega)]
  dsimp only
  have hne : s.population ≠ [] := by
    intro h
    rw [h] at hlen
    simp only [List.length_nil] at hlen
    omega
  have hinit := initializePopulation_population o tp.t60 s 0 hne
  rw [hlen] at hinit
  have hpos' : 0 < (initializePopulation o tp.t60 s 0).1.popSize := by
    rw [initializePopulation_popSize]
    exact hpos
  have hinit' : PopInv (irLengthOf tp.t60 s.sampleRate)
      (initializePopulation o tp.t60 s 0).1.popSize.toNat
      (initializePopulation o tp.t60 s 0).1.population := by
    rw [initializePopulation_popSize]
    exact hinit
  obtain ⟨hA, hB, hC, hD, hE⟩ := computeLoop_cancel o tp numGen
    (irLengthOf tp.t60 s.sampleRate) k (irLengthOf_pos tp.t60 s.sampleRate) hcancel
    numGen 0 (initializePopulation o tp.t60 s 0).1 (initializePopulation o tp.t60 s 0).2
    (if o.hasCallback = true then [⟨0, numGen, sentinelFitness⟩] else []) []
    hpos' hinit' (by omega) (by omega) (by omega)
  refine ⟨?_, hB, hC, ?_, ?_, hE⟩
  · rcases hA with hA | ⟨g, _, hg2, hg3⟩
    · exact Or.inl hA
    · exact Or.inr ⟨g, hg2, hg3⟩
  · simp only [List.length_nil] at hD
    omega
  · simp only [List.length_nil] at hD
    omega

/-- Witness for C7: population size 1, sample rate 1, budget 250,
cancellation requested from generation 1 on. -/
theorem C7_cancellation_witness :
    (0 < (initGA 1 (1 / 1000) 1).popSize ∧
      (initGA 1 (1 / 1000) 1).population.length = (initGA 1 (1 / 1000) 1).popSize.toNat ∧
      (∀ g, cancelAtOneOracle.cancelAt g = decide (1 ≤ g)) ∧ 1 ≤ 1 ∧ 1 + 1 < 250) ∧
    (((compute cancelAtOneOracle (initGA 1 (1 / 1000) 1)
          ({ } : ReverbTargetParams) 250).exitReason = .cancelled 1 ∨
        ∃ g ≤ 1, (compute cancelAtOneOracle (initGA 1 (1 / 1000) 1)
          ({ } : ReverbTargetParams) 250).exitReason = .converged g) ∧
      (compute cancelAtOneOracle (initGA 1 (1 / 1000) 1)
        ({ } : ReverbTargetParams) 250).ir ≠ [] ∧
      (compute cancelAtOneOracle (initGA 1 (1 / 1000) 1)
          ({ } : ReverbTargetParams) 250).ir
        = ((compute cancelAtOneOracle (initGA 1 (1 / 1000) 1)
            ({ } : ReverbTargetParams) 250).state.population.headD default).ir ∧
      (compute cancelAtOneOracle (initGA 1 (1 / 1000) 1)
          ({ } : ReverbTargetParams) 250).trace.length ≤ 1 + 1 ∧
      (compute cancelAtOneOracle (initGA 1 (1 / 1000) 1)
          ({ } : ReverbTargetParams) 250).trace.length < 250 ∧
      (cancelAtOneOracle.hasCallback = true → ∃ bq,
        (compute cancelAtOneOracle (initGA 1 (1 / 1000) 1)
            ({ } : ReverbTargetParams) 250).reports.getLast?
          = some ⟨250, 250, bq⟩)) :=
  ⟨⟨by decide, by simp [initGA], fun g => rfl, le_refl 1, by decide⟩,
    C7_cancellation cancelAtOneOracle (initGA 1 (1 / 1000) 1) ({ } : ReverbTargetParams)
      250 1 (by decide) (by simp [initGA]) (fun g => rfl) (le_refl 1) (by decide)⟩

end GeneticReverb
